import Mathlib

/-!
Verification of the commit-scheduler and contribution-aggregation subsystems.

This file gives a shallow embedding, in Lean, of the Python functions

  * ReactProjectScanner.prepare_commits        (test/q.py, lines 312-359)
  * DateHandler.validate_date_range            (src/core/date_handler.py)
  * DateHandler.is_weekend / DateUtils.is_weekend
  * GitHubScraper.fetch_contributions          (src/core/git_scraper.py)
  * GitHubScraper._process_commits
  * GitHubScraper._fetch_commit_details
  * ContributionAnalyzer.analyze_contributions (src/core/contribution_analyzer.py)
  * ContributionAnalyzer.get_top_contributors

and proves or refutes the specification claims about them.

Modelling conventions:
  * A Python `datetime` is modelled at minute granularity as an absolute day
    index plus hour and minute (the scheduler only ever manipulates those
    fields).  The day index is counted so that `day % 7 = 0` is a Monday,
    matching Python's `weekday()` (Monday = 0, ..., Sunday = 6).
  * The ambient global `random` module is modelled as an infinite stream of
    raw draws `f : Nat -> Nat` together with a cursor: each call to
    `random.randint` / `random.choice` reads the next stream value and
    advances the cursor.  `randint a b` reduces the raw draw modulo the size
    of the interval, so every value of `[a, b]` is reachable; the scheduler
    in the source takes no seed, so the stream stands for whatever state the
    global Mersenne-Twister happens to be in.  `random.randint(1, 0)` raises
    in Python, so theorems about `prepare_commits` assume
    `1 <= commits_per_day` (the UI enforces a 1..50 range).
  * Network results are inputs of the embedding: a detail fetch either
    yields a decoded record or raises `aiohttp.ClientError`
    (`FetchOutcome`), and the commit listing either yields a list of such
    outcomes or raises (`ListingOutcome`).
  * Python dicts are modelled as association lists that preserve key
    insertion order, exactly as CPython dicts do.
-/

/-- A Python `datetime` restricted to the fields the scheduler reads and
writes: absolute day index, hour, minute.  `day % 7 = 0` is a Monday. -/
structure PyDateTime where
  day : Nat
  hour : Nat
  minute : Nat
deriving DecidableEq, Repr

/-- Python `datetime` comparison `a <= b`, lexicographic on
(day, hour, minute). -/
def PyDateTime.le (a b : PyDateTime) : Bool :=
  a.day < b.day ||
    (a.day == b.day &&
      (a.hour < b.hour || (a.hour == b.hour && a.minute ≤ b.minute)))

/-- `DateHandler.is_weekend` / `DateUtils.is_weekend`: Python
`date.weekday() in [5, 6]` with Monday = 0. -/
def is_weekend (t : PyDateTime) : Bool :=
  t.day % 7 == 5 || t.day % 7 == 6

/-- `FileInfo` dataclass of test/q.py (the `last_modified` field, unread by
the scheduler, is modelled as a `PyDateTime`). -/
structure FileInfo where
  path : String
  size : Nat
  last_modified : PyDateTime
  content : String := ""
  type : String := ""
  category : String := ""
  complexity : Nat := 0
deriving DecidableEq, Repr

/-- The ambient global random stream: raw draw number `k` is `f k`. -/
abbrev RandF := Nat → Nat

/-- `random.randint(a, b)` (requires `a <= b` in Python): reads the next raw
draw and maps it into `[a, b]`; returns the value and the advanced cursor. -/
def randint (a b : Nat) (f : RandF) (k : Nat) : Nat × Nat :=
  (a + f k % (b + 1 - a), k + 1)

/-- `random.choice(seq)` for a nonempty `seq`: reads the next raw draw and
maps it to an index below `n`. -/
def choiceIdx (n : Nat) (f : RandF) (k : Nat) : Nat × Nat :=
  (f k % n, k + 1)

/-- Key of the scheduler's `type_groups` dict: `(file.type, file.category)`. -/
abbrev GroupKey := String × String

/-- One commit batch as prepared by the scheduler: a timestamp and the files
of the batch. -/
abbrev CommitPlan := PyDateTime × List FileInfo

/-- `type_groups.setdefault(key, []).append(file)`: append `file` to the
entry of its key, inserting a fresh entry at the end on first sight
(CPython dicts preserve insertion order). -/
def addToGroups (gs : List (GroupKey × List FileInfo)) (file : FileInfo) :
    List (GroupKey × List FileInfo) :=
  match gs with
  | [] => [((file.type, file.category), [file])]
  | (k, fs) :: rest =>
      if k = (file.type, file.category) then (k, fs ++ [file]) :: rest
      else (k, fs) :: addToGroups rest file

/-- The grouping loop of `prepare_commits` (lines 323-326 of test/q.py). -/
def groupFiles (files : List FileInfo) : List (GroupKey × List FileInfo) :=
  files.foldl addToGroups []

/-- `type_groups[group_key] = ...`: replace the value stored at an existing
key, leaving the dict order unchanged. -/
def setGroup (gs : List (GroupKey × List FileInfo)) (key : GroupKey)
    (v : List FileInfo) : List (GroupKey × List FileInfo) :=
  match gs with
  | [] => []
  | (k, fs) :: rest =>
      if k = key then (k, v) :: rest else (k, fs) :: setGroup rest key v

/-- The inner `for _ in range(daily_commits)` loop of `prepare_commits`
(lines 334-355 of test/q.py).  Arguments: remaining iteration count, the
day's `current_date`, the `type_groups` dict, the random cursor.  Returns
the commits emitted by the remaining iterations, the final dict and the
final cursor.  The source's two emptiness checks (`not any(...)` and
`not available_groups`) are equivalent and modelled as one break. -/
def innerLoop (f : RandF) (cur : PyDateTime) :
    Nat → List (GroupKey × List FileInfo) → Nat →
      List CommitPlan × List (GroupKey × List FileInfo) × Nat
  | 0, gs, k => ([], gs, k)
  | n + 1, gs, k =>
      let available := gs.filter (fun kv => !kv.2.isEmpty)
      if available.isEmpty then ([], gs, k)
      else
        let c1 := choiceIdx available.length f k
        let chosen := available.getD c1.1 (("", ""), [])
        let c2 := randint 1 (min 5 chosen.2.length) f c1.2
        let commitFiles := chosen.2.take c2.1
        let gs2 := setGroup gs chosen.1 (chosen.2.drop c2.1)
        let c3 := randint 9 18 f c2.2
        let c4 := randint 0 59 f c3.2
        let rest := innerLoop f cur n gs2 c4.2
        ((⟨cur.day, c3.1, c4.1⟩, commitFiles) :: rest.1, rest.2.1, rest.2.2)

/-- The outer `while current_date <= self.end_date` loop of
`prepare_commits` (lines 330-357 of test/q.py).  Each iteration advances
`current_date` by one day, so `end.day + 1 - current.day` iterations always
suffice; the loop is driven by that fuel, and `dayLoop_fuel_sufficient`
below proves any larger fuel gives the same result. -/
def dayLoop (f : RandF) (endD : PyDateTime) (cpd : Nat) :
    Nat → PyDateTime → List (GroupKey × List FileInfo) → Nat →
      List CommitPlan × List (GroupKey × List FileInfo) × Nat
  | 0, _, gs, k => ([], gs, k)
  | fuel + 1, cur, gs, k =>
      if PyDateTime.le cur endD then
        let d := randint 1 cpd f k
        let inner := innerLoop f cur d.1 gs d.2
        let rest := dayLoop f endD cpd fuel ⟨cur.day + 1, cur.hour, cur.minute⟩
          inner.2.1 inner.2.2
        (inner.1 ++ rest.1, rest.2.1, rest.2.2)
      else ([], gs, k)

/-- `ReactProjectScanner.prepare_commits` (test/q.py, lines 312-359).
Raises `ValueError` when no files were scanned; otherwise iterates the days
of `[start_date, end_date]`, drawing for each day a commit count in
`[1, commits_per_day]`, and for each commit a group, a slice size, and a
time in working hours.  Returns the prepared commits together with the
final random cursor (the number of ambient draws consumed). -/
def prepare_commits (files : List FileInfo) (startD endD : PyDateTime)
    (commits_per_day : Nat) (f : RandF) :
    Except String (List CommitPlan × Nat) :=
  if files.isEmpty then
    Except.error "No files to commit. Run scan_project() first."
  else
    let r := dayLoop f endD commits_per_day (endD.day + 1 - startD.day)
      startD (groupFiles files) 0
    Except.ok (r.1, r.2.2)

/-- Decidable equality for `Except`, used to evaluate the embedding at
concrete inputs. -/
instance {ε α : Type} [DecidableEq ε] [DecidableEq α] : DecidableEq (Except ε α) := fun a b =>
  match a, b with
  | Except.ok x, Except.ok y =>
      if h : x = y then isTrue (by rw [h]) else isFalse (by intro hc; cases hc; exact h rfl)
  | Except.error x, Except.error y =>
      if h : x = y then isTrue (by rw [h]) else isFalse (by intro hc; cases hc; exact h rfl)
  | Except.ok _, Except.error _ => isFalse (by intro hc; cases hc)
  | Except.error _, Except.ok _ => isFalse (by intro hc; cases hc)

/-- Concrete scanned file used in counterexamples and witnesses. -/
def fileA : FileInfo :=
  { path := "a.tsx", size := 1, last_modified := ⟨0, 0, 0⟩,
    type := "Component", category := "UI" }

/-- Second concrete scanned file, in the same `(type, category)` group. -/
def fileB : FileInfo :=
  { path := "b.tsx", size := 1, last_modified := ⟨0, 0, 0⟩,
    type := "Component", category := "UI" }

theorem PyDateTime.le_day {a b : PyDateTime} (h : PyDateTime.le a b = true) :
    a.day ≤ b.day := by
  simp only [PyDateTime.le, Bool.or_eq_true, Bool.and_eq_true, decide_eq_true_eq,
    beq_iff_eq] at h
  rcases h with h | ⟨h, _⟩
  · exact Nat.le_of_lt h
  · exact Nat.le_of_eq h

theorem addToGroups_ne_nil (gs : List (GroupKey × List FileInfo)) (file : FileInfo) :
    addToGroups gs file ≠ [] := by
  cases gs with
  | nil => simp [addToGroups]
  | cons e rest =>
      obtain ⟨k, fs⟩ := e
      simp only [addToGroups]
      split <;> simp

theorem addToGroups_values_ne_nil (gs : List (GroupKey × List FileInfo)) (file : FileInfo)
    (h : ∀ e ∈ gs, e.2 ≠ []) : ∀ e ∈ addToGroups gs file, e.2 ≠ [] := by
  induction gs with
  | nil => simp [addToGroups]
  | cons hd rest ih =>
      obtain ⟨k, fs⟩ := hd
      simp only [addToGroups]
      split
      · intro e he
        rcases List.mem_cons.mp he with rfl | he
        · simp
        · exact h e (List.mem_cons_of_mem _ he)
      · intro e he
        rcases List.mem_cons.mp he with rfl | he
        · exact h (k, fs) (List.mem_cons_self _ _)
        · exact ih (fun x hx => h x (List.mem_cons_of_mem _ hx)) e he

theorem foldl_addToGroups_ne_nil (files : List FileInfo)
    (acc : List (GroupKey × List FileInfo)) (h : acc ≠ []) :
    files.foldl addToGroups acc ≠ [] := by
  induction files generalizing acc with
  | nil => exact h
  | cons x xs ih => exact ih _ (addToGroups_ne_nil acc x)

theorem groupFiles_ne_nil (files : List FileInfo) (h : files ≠ []) :
    groupFiles files ≠ [] := by
  cases files with
  | nil => exact absurd rfl h
  | cons x xs =>
      show (x :: xs).foldl addToGroups [] ≠ []
      rw [List.foldl_cons]
      exact foldl_addToGroups_ne_nil xs _ (addToGroups_ne_nil [] x)

theorem groupFiles_values_ne_nil (files : List FileInfo) :
    ∀ e ∈ groupFiles files, e.2 ≠ [] := by
  have H : ∀ (fs : List FileInfo) (acc : List (GroupKey × List FileInfo)),
      (∀ e ∈ acc, e.2 ≠ []) → ∀ e ∈ fs.foldl addToGroups acc, e.2 ≠ [] := by
    intro fs
    induction fs with
    | nil => intro acc h; simpa using h
    | cons x xs ih =>
        intro acc h
        rw [List.foldl_cons]
        exact ih _ (addToGroups_values_ne_nil acc x h)
  exact H files [] (by simp)

theorem filter_nonempty_groups (gs : List (GroupKey × List FileInfo))
    (h : ∀ e ∈ gs, e.2 ≠ []) :
    gs.filter (fun kv => !kv.2.isEmpty) = gs := by
  apply List.filter_eq_self.mpr
  intro e he
  simpa [List.isEmpty_iff] using h e he

theorem PyDateTime.le_false_of_day_lt {a b : PyDateTime} (h : b.day < a.day) :
    PyDateTime.le a b = false := by
  simp only [PyDateTime.le, Bool.or_eq_false_iff, Bool.and_eq_false_iff,
    decide_eq_false_iff_not, beq_eq_false_iff_ne, ne_eq]
  omega

/-- The fuel `end.day + 1 - current.day` driving `dayLoop` is sufficient:
any fuel at least that large produces the same result, so the embedding
agrees with the unbounded `while current_date <= self.end_date` loop. -/
theorem dayLoop_fuel_sufficient (f : RandF) (endD : PyDateTime) (cpd : Nat) :
    ∀ fuel1 fuel2 (cur : PyDateTime) gs k,
      endD.day + 1 - cur.day ≤ fuel1 → endD.day + 1 - cur.day ≤ fuel2 →
      dayLoop f endD cpd fuel1 cur gs k = dayLoop f endD cpd fuel2 cur gs k := by
  intro fuel1
  induction fuel1 with
  | zero =>
      intro fuel2 cur gs k h1 _
      have hlt : endD.day < cur.day := by omega
      have hle := PyDateTime.le_false_of_day_lt hlt
      cases fuel2 with
      | zero => rfl
      | succ n => simp [dayLoop, hle]
  | succ n ih =>
      intro fuel2 cur gs k h1 h2
      cases fuel2 with
      | zero =>
          have hlt : endD.day < cur.day := by omega
          have hle := PyDateTime.le_false_of_day_lt hlt
          simp [dayLoop, hle]
      | succ m =>
          by_cases hle : PyDateTime.le cur endD = true
          · have hday : cur.day ≤ endD.day := PyDateTime.le_day hle
            simp only [dayLoop, hle, if_true]
            rw [ih m ⟨cur.day + 1, cur.hour, cur.minute⟩ _ _ (by simp; omega)
              (by simp; omega)]
          · have hle' : PyDateTime.le cur endD = false := by
              simpa using hle
            simp [dayLoop, hle']

theorem innerLoop_succ_emits (f : RandF) (cur : PyDateTime) (n : Nat)
    (gs : List (GroupKey × List FileInfo)) (k : Nat)
    (hgs : gs ≠ []) (hvals : ∀ e ∈ gs, e.2 ≠ []) :
    ∃ t fs rest gsF kF, innerLoop f cur (n + 1) gs k = ((t, fs) :: rest, gsF, kF) ∧
      t.day = cur.day := by
  have hfil : gs.filter (fun kv => !kv.2.isEmpty) = gs := filter_nonempty_groups gs hvals
  have hne : gs.isEmpty = false := by simpa [List.isEmpty_iff] using hgs
  simp only [innerLoop, hfil, hne, Bool.false_eq_true, if_false]
  exact ⟨_, _, _, _, _, rfl, rfl⟩

/-- C1, counterexample: the scheduler emits a batch timestamped on a
Saturday.  Day index 5 is a Saturday (Monday = 0); a one-day window on that
Saturday with one scanned file yields one batch at 09:00 of that Saturday,
so a weekend day contributes a batch instead of zero. -/
theorem prepare_commits_emits_on_saturday :
    prepare_commits [fileA] ⟨5, 0, 0⟩ ⟨5, 0, 0⟩ 10 (fun _ => 0) =
      Except.ok ([(⟨5, 9, 0⟩, [fileA])], 5) ∧ is_weekend ⟨5, 9, 0⟩ = true := by
  constructor
  · rfl
  · decide

/-- C1 (amended): `prepare_commits` has no weekend handling at all — the day
iteration never consults `is_weekend` and takes no constraints argument.  A
weekend day is scheduled exactly like a weekday: whenever the scanned file
list is nonempty, `commits_per_day >= 1` (Python `randint(1, 0)` would
raise) and the window starts on a Saturday or Sunday, that weekend day
contributes at least one batch, timestamped on it. -/
theorem prepare_commits_ignores_weekends
    (files : List FileInfo) (startD endD : PyDateTime) (cpd : Nat) (f : RandF)
    (hf : files ≠ []) (_hcpd : 1 ≤ cpd) (hle : PyDateTime.le startD endD = true)
    (hwk : is_weekend startD = true) :
    ∃ t fs rest k, prepare_commits files startD endD cpd f =
        Except.ok ((t, fs) :: rest, k) ∧ t.day = startD.day ∧ is_weekend t = true := by
  have hfe : files.isEmpty = false := by simpa [List.isEmpty_iff] using hf
  have hday : startD.day ≤ endD.day := PyDateTime.le_day hle
  obtain ⟨fl, hfl⟩ : ∃ fl, endD.day + 1 - startD.day = fl + 1 :=
    ⟨endD.day - startD.day, by omega⟩
  obtain ⟨m, hm⟩ : ∃ m, (randint 1 cpd f 0).1 = m + 1 :=
    ⟨f 0 % (cpd + 1 - 1), by simp [randint, Nat.add_comm]⟩
  obtain ⟨t, fs, rest, gsF, kF, hinner, hd⟩ :=
    innerLoop_succ_emits f startD m (groupFiles files) (randint 1 cpd f 0).2
      (groupFiles_ne_nil files hf) (groupFiles_values_ne_nil files)
  simp only [prepare_commits, hfe, Bool.false_eq_true, if_false, hfl]
  simp only [dayLoop, hle, if_true]
  rw [hm, hinner]
  refine ⟨t, fs,
    rest ++ (dayLoop f endD cpd fl ⟨startD.day + 1, startD.hour, startD.minute⟩ gsF kF).1,
    (dayLoop f endD cpd fl ⟨startD.day + 1, startD.hour, startD.minute⟩ gsF kF).2.2,
    by simp, hd, ?_⟩
  have ht : is_weekend t = is_weekend startD := by simp [is_weekend, hd]
  rw [ht]
  exact hwk

/-- C1, witness for the amended theorem: one file, a one-day window on the
Saturday with day index 5, ten commits per day, ambient stream constantly
zero. -/
theorem prepare_commits_ignores_weekends_witness :
    ∃ t fs rest k,
      prepare_commits [fileA] ⟨5, 0, 0⟩ ⟨5, 0, 0⟩ 10 (fun _ => 0) =
        Except.ok ((t, fs) :: rest, k) ∧ t.day = (⟨5, 0, 0⟩ : PyDateTime).day ∧
        is_weekend t = true :=
  prepare_commits_ignores_weekends [fileA] ⟨5, 0, 0⟩ ⟨5, 0, 0⟩ 10 (fun _ => 0)
    (by simp) (by norm_num) (by decide) (by decide)

theorem innerLoop_mem_bounds (f : RandF) (cur : PyDateTime) :
    ∀ (n : Nat) (gs : List (GroupKey × List FileInfo)) (k : Nat),
      ∀ c ∈ (innerLoop f cur n gs k).1,
        c.1.day = cur.day ∧ 9 ≤ c.1.hour ∧ c.1.hour ≤ 18 ∧ c.1.minute ≤ 59 := by
  intro n
  induction n with
  | zero => intro gs k c hc; simp [innerLoop] at hc
  | succ n ih =>
      intro gs k c hc
      simp only [innerLoop, randint, choiceIdx] at hc
      split at hc
      · simp at hc
      · rcases List.mem_cons.mp hc with rfl | hmem
        · dsimp only
          refine ⟨rfl, Nat.le_add_right _ _, ?_, ?_⟩
          · have h10 : f (k + 1 + 1) % (18 + 1 - 9) < 10 := Nat.mod_lt _ (by norm_num)
            omega
          · have h60 : f (k + 1 + 1 + 1) % (59 + 1 - 0) < 60 := Nat.mod_lt _ (by norm_num)
            omega
        · exact ih _ _ c hmem

theorem dayLoop_mem_bounds (f : RandF) (endD : PyDateTime) (cpd : Nat) :
    ∀ (fuel : Nat) (cur : PyDateTime) (gs : List (GroupKey × List FileInfo)) (k : Nat),
      ∀ c ∈ (dayLoop f endD cpd fuel cur gs k).1,
        cur.day ≤ c.1.day ∧ c.1.day ≤ endD.day ∧
        9 ≤ c.1.hour ∧ c.1.hour ≤ 18 ∧ c.1.minute ≤ 59 := by
  intro fuel
  induction fuel with
  | zero => intro cur gs k c hc; simp [dayLoop] at hc
  | succ fuel ih =>
      intro cur gs k c hc
      simp only [dayLoop] at hc
      split at hc
      · rename_i hguard
        rcases List.mem_append.mp hc with hmem | hmem
        · obtain ⟨hd, hb⟩ := innerLoop_mem_bounds f cur _ _ _ c hmem
          exact ⟨Nat.le_of_eq hd.symm, hd ▸ PyDateTime.le_day hguard, hb⟩
        · obtain ⟨hd, hb⟩ := ih _ _ _ c hmem
          exact ⟨by simp at hd; omega, hb⟩
      · simp at hc

/-- C4 (amended): every timestamp emitted by `prepare_commits` lies on a day
of the window and inside the working-hours range — hour in `[9, 18]`,
minute in `[0, 59]` — but nothing more: the per-day draws are independent,
with no ordering and no collision nudging. -/
theorem prepare_commits_timestamp_bounds
    (files : List FileInfo) (startD endD : PyDateTime) (cpd : Nat) (f : RandF)
    (out : List CommitPlan) (k : Nat)
    (h : prepare_commits files startD endD cpd f = Except.ok (out, k)) :
    ∀ c ∈ out, startD.day ≤ c.1.day ∧ c.1.day ≤ endD.day ∧
      9 ≤ c.1.hour ∧ c.1.hour ≤ 18 ∧ c.1.minute ≤ 59 := by
  intro c hc
  simp only [prepare_commits] at h
  split at h
  · cases h
  · have h1 : (dayLoop f endD cpd (endD.day + 1 - startD.day) startD
        (groupFiles files) 0).1 = out := by
      injection h with h2
      exact congrArg Prod.fst h2
    rw [← h1] at hc
    exact dayLoop_mem_bounds f endD cpd _ startD _ 0 c hc

/-- Ambient stream driving the C4/C5 counterexamples: first day draws two
commits, the first at 18:59 and the second at 09:00. -/
def streamC4 : RandF := fun i =>
  if i = 0 then 1 else if i = 3 then 9 else if i = 4 then 59 else 0

/-- C4, counterexample: with two scanned files in one group and a one-day
window, the ambient stream `streamC4` makes `prepare_commits` emit 18:59
followed by 09:00 on the same day — the timestamps of a single day are
neither strictly increasing nor nudged apart (the source draws each hour
and minute independently and never compares timestamps). -/
theorem prepare_commits_same_day_decreasing :
    prepare_commits [fileA, fileB] ⟨5, 0, 0⟩ ⟨5, 0, 0⟩ 10 streamC4 =
      Except.ok ([(⟨5, 18, 59⟩, [fileA]), (⟨5, 9, 0⟩, [fileB])], 9) ∧
    (⟨5, 18, 59⟩ : PyDateTime).day = (⟨5, 9, 0⟩ : PyDateTime).day ∧
    PyDateTime.le ⟨5, 18, 59⟩ ⟨5, 9, 0⟩ = false := by
  refine ⟨rfl, rfl, by decide⟩

/-- C4, witness for the amended theorem, at the batch emitted at 18:59 of
day 5 by the counterexample input. -/
theorem prepare_commits_timestamp_bounds_witness :
    (⟨5, 0, 0⟩ : PyDateTime).day ≤ (⟨5, 18, 59⟩ : PyDateTime).day ∧
    (⟨5, 18, 59⟩ : PyDateTime).day ≤ (⟨5, 0, 0⟩ : PyDateTime).day ∧
    9 ≤ (⟨5, 18, 59⟩ : PyDateTime).hour ∧ (⟨5, 18, 59⟩ : PyDateTime).hour ≤ 18 ∧
    (⟨5, 18, 59⟩ : PyDateTime).minute ≤ 59 :=
  prepare_commits_timestamp_bounds [fileA, fileB] ⟨5, 0, 0⟩ ⟨5, 0, 0⟩ 10 streamC4
    [(⟨5, 18, 59⟩, [fileA]), (⟨5, 9, 0⟩, [fileB])] 9 rfl
    (⟨5, 18, 59⟩, [fileA]) (by simp)

/-- Two ambient streams agree on all raw draws with index in `[a, b)`. -/
def AgreeOn (f g : RandF) (a b : Nat) : Prop :=
  ∀ i, a ≤ i → i < b → f i = g i

theorem innerLoop_cursor_mono (f : RandF) (cur : PyDateTime) :
    ∀ (n : Nat) (gs : List (GroupKey × List FileInfo)) (k : Nat),
      k ≤ (innerLoop f cur n gs k).2.2 := by
  intro n
  induction n with
  | zero => intro gs k; exact Nat.le_refl k
  | succ n ih =>
      intro gs k
      simp only [innerLoop, randint, choiceIdx]
      split
      · exact Nat.le_refl k
      · dsimp only
        exact Nat.le_trans (by omega) (ih _ (k + 1 + 1 + 1 + 1))

theorem dayLoop_cursor_mono (f : RandF) (endD : PyDateTime) (cpd : Nat) :
    ∀ (fuel : Nat) (cur : PyDateTime) (gs : List (GroupKey × List FileInfo)) (k : Nat),
      k ≤ (dayLoop f endD cpd fuel cur gs k).2.2 := by
  intro fuel
  induction fuel with
  | zero => intro cur gs k; exact Nat.le_refl k
  | succ fuel ih =>
      intro cur gs k
      simp only [dayLoop, randint]
      split
      · dsimp only
        refine Nat.le_trans (Nat.le_succ k) (Nat.le_trans ?_ (ih _ _ _))
        exact innerLoop_cursor_mono f cur _ gs (k + 1)
      · exact Nat.le_refl k

theorem innerLoop_agree (f g : RandF) (cur : PyDateTime) :
    ∀ (n : Nat) (gs : List (GroupKey × List FileInfo)) (k : Nat),
      AgreeOn f g k (innerLoop f cur n gs k).2.2 →
      innerLoop g cur n gs k = innerLoop f cur n gs k := by
  intro n
  induction n with
  | zero => intro gs k _; rfl
  | succ n ih =>
      intro gs k hag
      cases hfil : (gs.filter (fun kv => !kv.2.isEmpty)).isEmpty with
      | true => simp [innerLoop, hfil]
      | false =>
          have hbound : k + 1 + 1 + 1 + 1 ≤ (innerLoop f cur (n + 1) gs k).2.2 := by
            simp only [innerLoop, randint, choiceIdx, hfil, Bool.false_eq_true, if_false]
            exact innerLoop_cursor_mono f cur n _ _
          have h0 : f k = g k := hag k (Nat.le_refl k) (by omega)
          have h1 : f (k + 1) = g (k + 1) := hag _ (by omega) (by omega)
          have h2 : f (k + 1 + 1) = g (k + 1 + 1) := hag _ (by omega) (by omega)
          have h3 : f (k + 1 + 1 + 1) = g (k + 1 + 1 + 1) := hag _ (by omega) (by omega)
          have hag' : AgreeOn f g (k + 1 + 1 + 1 + 1) (innerLoop f cur (n + 1) gs k).2.2 :=
            fun i hi1 hi2 => hag i (by omega) hi2
          simp only [innerLoop, randint, choiceIdx, hfil, Bool.false_eq_true,
            if_false] at hag' ⊢
          rw [← h0, ← h1, ← h2, ← h3, ih _ _ hag']

theorem dayLoop_agree (f g : RandF) (endD : PyDateTime) (cpd : Nat) :
    ∀ (fuel : Nat) (cur : PyDateTime) (gs : List (GroupKey × List FileInfo)) (k : Nat),
      AgreeOn f g k (dayLoop f endD cpd fuel cur gs k).2.2 →
      dayLoop g endD cpd fuel cur gs k = dayLoop f endD cpd fuel cur gs k := by
  intro fuel
  induction fuel with
  | zero => intro cur gs k _; rfl
  | succ fuel ih =>
      intro cur gs k hag
      cases hguard : PyDateTime.le cur endD with
      | false => simp [dayLoop, hguard]
      | true =>
          have hinner : k + 1 ≤ (innerLoop f cur (1 + f k % (cpd + 1 - 1)) gs (k + 1)).2.2 :=
            innerLoop_cursor_mono f cur _ gs (k + 1)
          have hrest :
              (innerLoop f cur (1 + f k % (cpd + 1 - 1)) gs (k + 1)).2.2 ≤
              (dayLoop f endD cpd (fuel + 1) cur gs k).2.2 := by
            simp only [dayLoop, randint, hguard, if_true]
            exact dayLoop_cursor_mono f endD cpd fuel _ _ _
          have h0 : f k = g k := hag k (Nat.le_refl k) (by omega)
          have hagI : AgreeOn f g (k + 1)
              (innerLoop f cur (1 + f k % (cpd + 1 - 1)) gs (k + 1)).2.2 :=
            fun i hi1 hi2 => hag i (by omega) (Nat.lt_of_lt_of_le hi2 hrest)
          have hagD : AgreeOn f g
              (innerLoop f cur (1 + f k % (cpd + 1 - 1)) gs (k + 1)).2.2
              (dayLoop f endD cpd (fuel + 1) cur gs k).2.2 :=
            fun i hi1 hi2 => hag i (by omega) hi2
          simp only [dayLoop, randint, hguard, if_true] at hagD ⊢
          rw [← h0, innerLoop_agree f g cur _ _ _ hagI, ih _ _ _ hagD]

/-- C5 (amended): `prepare_commits` takes no `rng_seed` — every draw comes
from the ambient global `random` stream.  The schedule is nevertheless a
deterministic function of the inputs plus the consumed prefix of that
stream: two ambient streams that agree on the first `k` raw draws, where
`k` is the number of draws the run consumes, produce identical batch
sequences.  Reproducibility therefore holds relative to the ambient global
state only, not to any seed argument. -/
theorem prepare_commits_stream_determinism
    (files : List FileInfo) (startD endD : PyDateTime) (cpd : Nat)
    (f g : RandF) (out : List CommitPlan) (k : Nat)
    (h : prepare_commits files startD endD cpd f = Except.ok (out, k))
    (hag : AgreeOn f g 0 k) :
    prepare_commits files startD endD cpd g = Except.ok (out, k) := by
  simp only [prepare_commits] at h ⊢
  split at h
  · cases h
  · rename_i hne
    rw [if_neg hne]
    have hk : (dayLoop f endD cpd (endD.day + 1 - startD.day) startD
        (groupFiles files) 0).2.2 = k := by
      injection h with h2
      exact congrArg Prod.snd h2
    rw [dayLoop_agree f g endD cpd _ startD (groupFiles files) 0 (hk ▸ hag)]
    exact h

/-- C5, counterexample: the same inputs under two different ambient global
random states yield different schedules — there is no seed parameter that
could make the two calls agree, so the determinism the spec promises for a
given `rng_seed` does not exist in the code. -/
theorem prepare_commits_depends_on_ambient_state :
    prepare_commits [fileA] ⟨5, 0, 0⟩ ⟨5, 0, 0⟩ 10 (fun _ => 0) ≠
      prepare_commits [fileA] ⟨5, 0, 0⟩ ⟨5, 0, 0⟩ 10 (fun _ => 1) := by
  decide

/-- Ambient stream equal to the constant-zero stream on the five consumed
draws of the witness run, and different beyond them. -/
def streamC5 : RandF := fun i => if i < 5 then 0 else 7

/-- C5, witness for the amended theorem: the run on the constant-zero
stream consumes five draws; `streamC5` agrees with it on those five, so the
schedule is reproduced exactly. -/
theorem prepare_commits_stream_determinism_witness :
    prepare_commits [fileA] ⟨5, 0, 0⟩ ⟨5, 0, 0⟩ 10 streamC5 =
      Except.ok ([(⟨5, 9, 0⟩, [fileA])], 5) :=
  prepare_commits_stream_determinism [fileA] ⟨5, 0, 0⟩ ⟨5, 0, 0⟩ 10
    (fun _ => 0) streamC5 [(⟨5, 9, 0⟩, [fileA])] 5 rfl
    (fun i _ hi => by simp [streamC5, hi])

/-- `DateHandler.validate_date_range` (src/core/date_handler.py, lines
16-35).  Instants are modelled as integers on one common time scale, with
`lookback` and `ahead` the configured `max_days_lookback` /
`max_days_ahead` converted to that scale.  Raises `ValueError` when
`start_date > end_date`; otherwise clamps `start_date` up to
`now - lookback` and `end_date` down to `now + ahead` and returns the
pair. -/
def validate_date_range (start_date end_date now lookback ahead : Int) :
    Except String (Int × Int) :=
  if start_date > end_date then
    Except.error "Start date must be before end date"
  else
    let max_past := now - lookback
    let max_future := now + ahead
    let s := if start_date < max_past then max_past else start_date
    let e := if end_date > max_future then max_future else end_date
    Except.ok (s, e)

/-- C9, counterexample: a range lying entirely before the lookback limit is
accepted but comes back inverted.  With `now = 0` and a 30-day lookback,
the pair `start = end = -100` passes the `start > end` check, then only
`start` is clamped up to `-30`, so the returned window has
`start = -30 > end = -100`, violating the `start <= end` invariant. -/
theorem validate_date_range_inverts_window :
    validate_date_range (-100) (-100) 0 30 30 = Except.ok (-30, -100) ∧
    ¬((-30 : Int) ≤ -100) := by
  refine ⟨rfl, by decide⟩

/-- C9 (amended): `validate_date_range` rejects `start > end`, and the
returned window satisfies `start <= end` provided the input range actually
meets the clamp interval `[now - lookback, now + ahead]` (and the interval
is itself nonempty); when the input range lies wholly outside it, the
clamping can invert the window, as the counterexample shows. -/
theorem validate_date_range_ordered_of_overlap
    (start_date end_date now lookback ahead : Int)
    (h1 : start_date ≤ end_date) (h2 : now - lookback ≤ end_date)
    (h3 : start_date ≤ now + ahead) (h4 : 0 ≤ lookback + ahead) :
    ∃ s e, validate_date_range start_date end_date now lookback ahead =
        Except.ok (s, e) ∧ s ≤ e := by
  rw [validate_date_range, if_neg (not_lt.mpr h1)]
  refine ⟨_, _, rfl, ?_⟩
  split_ifs <;> omega

/-- C9, witness for the amended theorem: a window overlapping the clamp
interval is returned unchanged and ordered. -/
theorem validate_date_range_ordered_witness :
    ∃ s e, validate_date_range (-5) 5 0 30 30 = Except.ok (s, e) ∧ s ≤ e :=
  validate_date_range_ordered_of_overlap (-5) 5 0 30 30 (by norm_num)
    (by norm_num) (by norm_num) (by norm_num)

/-- The author-name portion of a decoded commit-details JSON object, to the
depth read by `analyze_contributions`.  An `Option` field being `none`
models the corresponding dict key being absent. -/
structure AuthorField where
  name : Option String
deriving DecidableEq, Repr

/-- The `commit` sub-object of a decoded commit-details JSON object. -/
structure CommitField where
  author : Option AuthorField
deriving DecidableEq, Repr

/-- A decoded commit-details object; the empty dict `{}` is `⟨none⟩`. -/
structure CommitDetail where
  commit : Option CommitField
deriving DecidableEq, Repr

/-- The empty dict `{}`, returned by `_fetch_commit_details` on failure. -/
def emptyDetail : CommitDetail := ⟨none⟩

/-- The author extraction of `analyze_contributions` (line 38):
`commit.get("commit", ...).get("author", ...).get("name", "Unknown")` with empty-dict defaults. -/
def getAuthor (c : CommitDetail) : String :=
  (((c.commit.getD ⟨none⟩).author.getD ⟨none⟩).name.getD "Unknown")

/-- Result of one detail-fetch request, an input of the embedding: either
the decoded response or an `aiohttp.ClientError`.  Permanent failures such
as a 404 not-found surface through `raise_for_status` as a subclass of
`ClientError`. -/
inductive FetchOutcome where
  | ok (d : CommitDetail)
  | clientError
deriving DecidableEq, Repr

/-- `GitHubScraper._fetch_commit_details` (git_scraper.py, lines 119-137):
returns the decoded details, or the empty dict `{}` when the request
raises `aiohttp.ClientError`.  The failure is logged only — no retry, and
nothing records it for the caller. -/
def fetch_commit_details : FetchOutcome → CommitDetail
  | .ok d => d
  | .clientError => emptyDetail

/-- The `tasks` list built by `GitHubScraper._process_commits` (lines
108-112): the loop appends one `_fetch_commit_details` task per commit of
the candidate set. -/
def buildTasks : List FetchOutcome → List FetchOutcome
  | [] => []
  | c :: rest => c :: buildTasks rest

/-- The number of detail-fetch requests started concurrently by the single
`asyncio.gather(*tasks)` call of `_process_commits` (line 112): `gather`
starts every task it is given at once; the code has no semaphore or worker
pool, and the configured `settings.scraper.max_concurrent_requests` is
never consulted. -/
def gatherFanout (commits_data : List FetchOutcome) : Nat :=
  (buildTasks commits_data).length

/-- `GitHubScraper._process_commits` (lines 98-117): gather the detail
fetch of every commit of the candidate set and return the enriched
records in order. -/
def process_commits (commits_data : List FetchOutcome) : List CommitDetail :=
  (buildTasks commits_data).map fetch_commit_details

/-- Result of the commit-listing request of `fetch_contributions`. -/
inductive ListingOutcome where
  | ok (commits : List FetchOutcome)
  | clientError
deriving DecidableEq, Repr

/-- `GitHubScraper.fetch_contributions` (lines 64-96): on success the
candidate set is enriched via `_process_commits`; an `aiohttp.ClientError`
from the listing request is caught and an empty list is returned instead
of re-raising. -/
def fetch_contributions : ListingOutcome → List CommitDetail
  | .ok commits => process_commits commits
  | .clientError => []

/-- One iteration of the counting loop of `analyze_contributions` (lines
39-42): bump an existing author in place or append a new author with count
one (CPython dicts preserve insertion order). -/
def bumpAuthor : List (String × Nat) → String → List (String × Nat)
  | [], a => [(a, 1)]
  | (k, v) :: rest, a =>
      if k = a then (k, v + 1) :: rest else (k, v) :: bumpAuthor rest a

/-- The counting loop of `analyze_contributions` (lines 37-42). -/
def countAuthors (details : List CommitDetail) : List (String × Nat) :=
  details.foldl (fun m c => bumpAuthor m (getAuthor c)) []

/-- `ContributionAnalyzer.analyze_contributions` (lines 21-47): fetch the
candidate set and count every fetched record under its extracted author
name.  The `except` clause would re-raise, but no exception escapes the
scraper (client errors are swallowed inside it), so the function always
returns a result. -/
def analyze_contributions (listing : ListingOutcome) :
    Except String (List (String × Nat)) :=
  Except.ok (countAuthors (fetch_contributions listing))

/-- `sum(by_author.values())` over the contributions dict. -/
def sumCounts (m : List (String × Nat)) : Nat :=
  (m.map Prod.snd).sum

/-- Lookup of one author's count, 0 when absent. -/
def getCount : List (String × Nat) → String → Nat
  | [], _ => 0
  | (k, v) :: rest, a => if k = a then v else getCount rest a

theorem buildTasks_eq (l : List FetchOutcome) : buildTasks l = l := by
  induction l with
  | nil => rfl
  | cons c rest ih => simp [buildTasks, ih]

theorem sumCounts_bumpAuthor (m : List (String × Nat)) (a : String) :
    sumCounts (bumpAuthor m a) = sumCounts m + 1 := by
  induction m with
  | nil => rfl
  | cons kv rest ih =>
      obtain ⟨k, v⟩ := kv
      simp only [bumpAuthor]
      split
      · simp [sumCounts]
        omega
      · simp only [sumCounts, List.map_cons, List.sum_cons] at ih ⊢
        omega

theorem getCount_bumpAuthor_self (m : List (String × Nat)) (a : String) :
    getCount (bumpAuthor m a) a = getCount m a + 1 := by
  induction m with
  | nil => simp [bumpAuthor, getCount]
  | cons kv rest ih =>
      obtain ⟨k, v⟩ := kv
      simp only [bumpAuthor]
      split
      · rename_i hk
        simp [getCount, hk]
      · rename_i hk
        simp [getCount, hk, ih]

theorem getCount_bumpAuthor_ne (m : List (String × Nat)) (a b : String)
    (h : b ≠ a) : getCount (bumpAuthor m a) b = getCount m b := by
  induction m with
  | nil => simp [bumpAuthor, getCount, Ne.symm h]
  | cons kv rest ih =>
      obtain ⟨k, v⟩ := kv
      simp only [bumpAuthor]
      split
      · rename_i hk
        subst hk
        simp [getCount, Ne.symm h]
      · by_cases hb : k = b
        · simp [getCount, hb]
        · simp [getCount, hb, ih]

theorem sumCounts_countAuthors_aux (l : List CommitDetail)
    (m : List (String × Nat)) :
    sumCounts (l.foldl (fun acc c => bumpAuthor acc (getAuthor c)) m) =
      sumCounts m + l.length := by
  induction l generalizing m with
  | nil => simp
  | cons c rest ih =>
      simp only [List.foldl_cons, List.length_cons]
      rw [ih, sumCounts_bumpAuthor]
      omega

/-- The total of the contributions dict equals the number of counted
records: the loop increments exactly one counter per record and never
skips one. -/
theorem sumCounts_countAuthors (l : List CommitDetail) :
    sumCounts (countAuthors l) = l.length := by
  simpa [sumCounts] using sumCounts_countAuthors_aux l []

theorem getCount_countAuthors_aux (l : List CommitDetail)
    (m : List (String × Nat)) (a : String) :
    getCount (l.foldl (fun acc c => bumpAuthor acc (getAuthor c)) m) a =
      getCount m a + l.countP (fun c => getAuthor c == a) := by
  induction l generalizing m with
  | nil => simp
  | cons c rest ih =>
      simp only [List.foldl_cons]
      rw [ih]
      by_cases hc : getAuthor c = a
      · rw [hc, getCount_bumpAuthor_self]
        simp [List.countP_cons, hc]
        omega
      · rw [getCount_bumpAuthor_ne _ _ _ (fun h => hc h.symm)]
        simp [List.countP_cons, hc]

/-- An author's count in the contributions dict equals the number of
counted records whose extracted author is that name. -/
theorem getCount_countAuthors (l : List CommitDetail) (a : String) :
    getCount (countAuthors l) a = l.countP (fun c => getAuthor c == a) := by
  simpa [getCount] using getCount_countAuthors_aux l [] a

/-- One entry of the list returned by `get_top_contributors`, modelling the
dict with the keys `name` and `contributions` (line 65). -/
structure ContributorEntry where
  name : String
  contributions : Nat
deriving DecidableEq, Repr

/-- Python's `sorted(contributions.items(), key=lambda x: x[1],
reverse=True)`: a stable sort placing higher counts first and keeping the
dict's insertion order among equal counts.  A stable sort is unique, so
insertion sort models CPython's stable Timsort exactly. -/
def sortByCountDesc (l : List (String × Nat)) : List (String × Nat) :=
  List.insertionSort (fun x y => y.2 ≤ x.2) l

/-- `ContributionAnalyzer.get_top_contributors` (lines 49-70): analyze the
window, sort the author/count pairs by count descending (stable), keep the
first `top_n`, and wrap each as a name/contributions record.  Pure
post-processing of the completed counts — nothing is re-fetched. -/
def get_top_contributors (listing : ListingOutcome) (top_n : Nat) :
    Except String (List ContributorEntry) :=
  (analyze_contributions listing).map fun contributions =>
    ((sortByCountDesc contributions).take top_n).map fun p => ⟨p.1, p.2⟩

instance : IsTotal (String × Nat) (fun x y => y.2 ≤ x.2) :=
  ⟨fun a b => Nat.le_total b.2 a.2⟩

instance : IsTrans (String × Nat) (fun x y => y.2 ≤ x.2) :=
  ⟨fun _ _ _ hab hbc => Nat.le_trans hbc hab⟩

/-- A decoded commit-details object carrying the author name `s`. -/
def mkDetail (s : String) : CommitDetail := ⟨some ⟨some ⟨some s⟩⟩⟩

/-- A successful detail fetch of a commit authored by `s`. -/
def mkOk (s : String) : FetchOutcome := FetchOutcome.ok (mkDetail s)

/-- C7: `get_top_contributors` is pure post-processing of the completed
counts: its output is sorted by contribution count descending, and ties
keep the dict's first-seen order (Python's `sorted` is stable and the
`reverse=True` key sort never reorders equal keys).  Over counts
a: 3, b: 3, c: 1 with `top_n = 2` it returns a then b when a was first seen
earlier in the candidate set, and b then a when b was — first-seen order,
not alphabetical. -/
theorem get_top_contributors_desc_stable :
    (∀ (listing : ListingOutcome) (n : Nat) (m : List ContributorEntry),
        get_top_contributors listing n = Except.ok m →
        m.Pairwise (fun x y => y.contributions ≤ x.contributions)) ∧
    get_top_contributors (ListingOutcome.ok
        [mkOk "a", mkOk "a", mkOk "a", mkOk "b", mkOk "b", mkOk "b", mkOk "c"]) 2 =
      Except.ok [⟨"a", 3⟩, ⟨"b", 3⟩] ∧
    get_top_contributors (ListingOutcome.ok
        [mkOk "b", mkOk "b", mkOk "b", mkOk "a", mkOk "a", mkOk "a", mkOk "c"]) 2 =
      Except.ok [⟨"b", 3⟩, ⟨"a", 3⟩] := by
  refine ⟨?_, rfl, rfl⟩
  intro listing n m hm
  simp only [get_top_contributors, analyze_contributions, Except.map] at hm
  injection hm with hm
  subst hm
  apply List.pairwise_map.mpr
  have hs : (sortByCountDesc (countAuthors (fetch_contributions listing))).Pairwise
      (fun x y : String × Nat => y.2 ≤ x.2) :=
    List.sorted_insertionSort _ _
  exact List.Pairwise.sublist (List.take_sublist n _) hs

/-- C7, witness for the sortedness conjunct, at the first concrete
candidate set. -/
theorem get_top_contributors_desc_stable_witness :
    ([⟨"a", 3⟩, ⟨"b", 3⟩] : List ContributorEntry).Pairwise
      (fun x y => y.contributions ≤ x.contributions) :=
  get_top_contributors_desc_stable.1
    (ListingOutcome.ok
      [mkOk "a", mkOk "a", mkOk "a", mkOk "b", mkOk "b", mkOk "b", mkOk "c"])
    2 [⟨"a", 3⟩, ⟨"b", 3⟩] rfl

/-- C8: when every detail fetch of the candidate set succeeds, the
aggregation conserves counts — the total (the sum of the per-author
counts) equals the candidate-set size; and the concrete scenario of three
commits by x, y, x yields x: 2, y: 1 with total three. -/
theorem analyze_contributions_conserves_total :
    (∀ (outcomes : List FetchOutcome) (m : List (String × Nat)),
        (∀ o ∈ outcomes, ∃ d, o = FetchOutcome.ok d) →
        analyze_contributions (ListingOutcome.ok outcomes) = Except.ok m →
        sumCounts m = outcomes.length) ∧
    analyze_contributions (ListingOutcome.ok [mkOk "x", mkOk "y", mkOk "x"]) =
      Except.ok [("x", 2), ("y", 1)] := by
  refine ⟨?_, rfl⟩
  intro outcomes m _ hm
  simp only [analyze_contributions] at hm
  injection hm with hm
  subst hm
  rw [sumCounts_countAuthors]
  simp [fetch_contributions, process_commits, buildTasks_eq]

/-- C8, witness: the all-success candidate set of the x, y, x scenario. -/
theorem analyze_contributions_conserves_total_witness :
    sumCounts [("x", 2), ("y", 1)] =
      ([mkOk "x", mkOk "y", mkOk "x"] : List FetchOutcome).length :=
  analyze_contributions_conserves_total.1 [mkOk "x", mkOk "y", mkOk "x"]
    [("x", 2), ("y", 1)]
    (by intro o ho; fin_cases ho <;> exact ⟨_, rfl⟩) rfl

/-- C2, counterexample: a candidate set of five where exactly one detail
fetch fails permanently.  The code returns total five — not four — because
the failed fetch yields the empty record, which is counted under the
author "Unknown"; and no error list exists anywhere in the pipeline. -/
theorem analyze_one_failure_total_five :
    analyze_contributions (ListingOutcome.ok
        [mkOk "a", mkOk "b", FetchOutcome.clientError, mkOk "c", mkOk "d"]) =
      Except.ok [("a", 1), ("b", 1), ("Unknown", 1), ("c", 1), ("d", 1)] ∧
    sumCounts [("a", 1), ("b", 1), ("Unknown", 1), ("c", 1), ("d", 1)] = 5 ∧
    getCount [("a", 1), ("b", 1), ("Unknown", 1), ("c", 1), ("d", 1)] "Unknown" = 1 :=
  ⟨rfl, rfl, rfl⟩

theorem countP_unknown_zero (l : List FetchOutcome)
    (h : ∀ o ∈ l, ∃ d, o = FetchOutcome.ok d ∧ getAuthor d ≠ "Unknown") :
    (l.map fetch_commit_details).countP (fun c => getAuthor c == "Unknown") = 0 := by
  rw [List.countP_eq_zero]
  intro c hc
  rw [List.mem_map] at hc
  obtain ⟨o, ho, rfl⟩ := hc
  obtain ⟨d, rfl, hd⟩ := h o ho
  simpa [fetch_commit_details] using hd

/-- C2 (amended): with four successful fetches of known authors and one
permanent failure, aggregation returns total five — the failed commit is
counted under the author "Unknown" (with count exactly one), because the
failed fetch degrades to the empty record instead of being skipped, and no
error list is recorded. -/
theorem analyze_one_failure_counts_unknown
    (pre post : List FetchOutcome)
    (hpre : ∀ o ∈ pre, ∃ d, o = FetchOutcome.ok d ∧ getAuthor d ≠ "Unknown")
    (hpost : ∀ o ∈ post, ∃ d, o = FetchOutcome.ok d ∧ getAuthor d ≠ "Unknown")
    (hlen : pre.length + post.length = 4) :
    ∃ m, analyze_contributions
        (ListingOutcome.ok (pre ++ FetchOutcome.clientError :: post)) =
        Except.ok m ∧ sumCounts m = 5 ∧ getCount m "Unknown" = 1 := by
  refine ⟨_, rfl, ?_, ?_⟩
  · rw [sumCounts_countAuthors]
    simp only [fetch_contributions, process_commits, buildTasks_eq, List.length_map,
      List.length_append, List.length_cons]
    omega
  · rw [getCount_countAuthors]
    simp only [fetch_contributions, process_commits, buildTasks_eq, List.map_append,
      List.map_cons, List.countP_append, List.countP_cons]
    rw [countP_unknown_zero pre hpre, countP_unknown_zero post hpost]
    decide

/-- C2, witness for the amended theorem: authors a, b before the failure
and c, d after it. -/
theorem analyze_one_failure_counts_unknown_witness :
    ∃ m, analyze_contributions (ListingOutcome.ok
        ([mkOk "a", mkOk "b"] ++ FetchOutcome.clientError :: [mkOk "c", mkOk "d"])) =
      Except.ok m ∧ sumCounts m = 5 ∧ getCount m "Unknown" = 1 :=
  analyze_one_failure_counts_unknown [mkOk "a", mkOk "b"] [mkOk "c", mkOk "d"]
    (by intro o ho; fin_cases ho <;> exact ⟨_, rfl, by decide⟩)
    (by intro o ho; fin_cases ho <;> exact ⟨_, rfl, by decide⟩)
    rfl

/-- C3, counterexample: when the commit listing fails, the aggregation does
not fail — `fetch_contributions` swallows the `ClientError` and returns the
empty list, and `analyze_contributions` returns empty statistics (an `ok`
empty dict) instead of raising. -/
theorem analyze_listing_failure_returns_empty :
    analyze_contributions ListingOutcome.clientError = Except.ok [] ∧
    fetch_contributions ListingOutcome.clientError = [] :=
  ⟨rfl, rfl⟩

/-- C3 (amended): a candidate-set listing failure is not fatal to the
aggregation call: the error is caught inside the scraper, the candidate
set degrades to the empty list, and the aggregation returns `ok` with
empty statistics — indeed no listing outcome whatsoever can make
`analyze_contributions` surface an error. -/
theorem analyze_swallows_listing_error (listing : ListingOutcome)
    (h : listing = ListingOutcome.clientError) :
    analyze_contributions listing = Except.ok [] ∧
    (∀ other : ListingOutcome, ∃ m, analyze_contributions other = Except.ok m) := by
  subst h
  exact ⟨rfl, fun other => ⟨_, rfl⟩⟩

/-- C3, witness for the amended theorem. -/
theorem analyze_swallows_listing_error_witness :
    analyze_contributions ListingOutcome.clientError = Except.ok [] ∧
    (∀ other : ListingOutcome, ∃ m, analyze_contributions other = Except.ok m) :=
  analyze_swallows_listing_error ListingOutcome.clientError rfl

/-- C6, counterexample: a candidate set of three with a concurrency limit
of two.  The single `asyncio.gather` starts three detail fetches at once —
more than the limit — because no semaphore or pool bounds the fan-out. -/
theorem gather_fanout_exceeds_limit :
    gatherFanout [mkOk "a", mkOk "b", FetchOutcome.clientError] = 3 ∧
    ¬(gatherFanout [mkOk "a", mkOk "b", FetchOutcome.clientError] ≤ 2) :=
  ⟨rfl, by decide⟩

/-- C6 (amended): the detail-fetch fan-out of `_process_commits` is
unbounded — one task per candidate commit, all started by one
`asyncio.gather` call, so the number of concurrently started requests
equals the candidate-set size and exceeds any fixed limit on a larger
set.  No `concurrency_limit` parameter exists in the code, and the
configured `max_concurrent_requests` setting is never consulted. -/
theorem gather_fanout_equals_candidate_size (commits_data : List FetchOutcome) :
    gatherFanout commits_data = commits_data.length := by
  simp [gatherFanout, buildTasks_eq]

/-- C10: a fetched record lacking author metadata at any level — including
the empty record produced by a failed detail fetch — is extracted as
author "Unknown" and counted like any other record: it contributes to the
total (the total always equals the number of records) and appears in the
per-author dict under "Unknown", never being skipped. -/
theorem analyze_counts_missing_author_as_unknown :
    (∀ details : List CommitDetail,
        sumCounts (countAuthors details) = details.length ∧
        getCount (countAuthors details) "Unknown" =
          details.countP (fun c => getAuthor c == "Unknown")) ∧
    fetch_commit_details FetchOutcome.clientError = emptyDetail ∧
    getAuthor emptyDetail = "Unknown" ∧
    (∀ d : CommitDetail,
        (d.commit = none ∨ (∃ cf, d.commit = some cf ∧ cf.author = none) ∨
          (∃ cf af, d.commit = some cf ∧ cf.author = some af ∧ af.name = none)) →
        getAuthor d = "Unknown") := by
  refine ⟨fun details =>
    ⟨sumCounts_countAuthors details, getCount_countAuthors details _⟩, rfl, rfl, ?_⟩
  intro d hd
  rcases hd with h | ⟨cf, hcf, ha⟩ | ⟨cf, af, hcf, ha, hn⟩
  · simp [getAuthor, h]
  · simp [getAuthor, hcf, ha]
  · simp [getAuthor, hcf, ha, hn]

/-- C10, witness: a record whose `commit` object exists but whose `author`
object is absent is counted under "Unknown". -/
theorem analyze_counts_missing_author_as_unknown_witness :
    getAuthor ⟨some ⟨none⟩⟩ = "Unknown" :=
  analyze_counts_missing_author_as_unknown.2.2.2 ⟨some ⟨none⟩⟩
    (Or.inr (Or.inl ⟨_, rfl, rfl⟩))
